import Mathlib

set_option maxHeartbeats 1000000
set_option linter.unusedVariables false

/-!
Shallow embedding of the shared SEC HTTP access layer of
`flow_researcher` (`src/flow_researcher/tools/sec_http_client.py`):
the classes `RateLimiter`, `SimpleCache` and `SECHttpClient`.

Time is modeled as `ℚ` (seconds, the unit of `time.time()`).  Python
`None` and JSON `null` are identified, as they are in the source
(`json` round-trips Python `None` as `null`, and the client tests
`is not None`).
-/

/-- JSON-like payload values (the `Any` values the cache stores),
modeled to scalar depth.  `JVal.null` plays the role of both Python
`None` and JSON `null`. -/
inductive JVal where
  | null
  | bool (b : Bool)
  | num (n : ℤ)
  | str (s : String)
deriving DecidableEq, Repr

/-- Serialization of a payload, mirroring `json.dumps` on scalars. -/
def dumpJVal : JVal → String
  | .null => "null"
  | .bool true => "true"
  | .bool false => "false"
  | .num n => toString n
  | .str s => "\x22" ++ s ++ "\x22"

/-- Key order used by `json.dumps(..., sort_keys=True)`. -/
def keyLe (a b : String × JVal) : Prop := a.1 ≤ b.1

instance : DecidableRel keyLe := fun a b =>
  inferInstanceAs (Decidable (a.1 ≤ b.1))

instance : IsTotal (String × JVal) keyLe := ⟨fun a b => le_total a.1 b.1⟩

instance : IsTrans (String × JVal) keyLe :=
  ⟨fun _ _ _ hab hbc => le_trans hab hbc⟩

/-- Strict version of `keyLe`, used to compare canonicalized lists. -/
def keyLt (a b : String × JVal) : Prop := a.1 < b.1

instance : IsAntisymm (String × JVal) keyLt :=
  ⟨fun _ _ h1 h2 => absurd (lt_trans h1 h2) (lt_irrefl _)⟩

/-- Sorting of query parameters by key (`sort_keys=True`). -/
def sortParams (ps : List (String × JVal)) : List (String × JVal) :=
  List.insertionSort keyLe ps

/-- `json.dumps(params or {}, sort_keys=True)` on a dict rendered as an
association list: keys sorted, `", "` item separator, `": "` key
separator. -/
def dumpsObj (ps : List (String × JVal)) : String :=
  "\x7b" ++ String.intercalate ", "
    ((sortParams ps).map (fun kv => "\x22" ++ kv.1 ++ "\x22: " ++ dumpJVal kv.2))
    ++ "\x7d"

/-- The cache key `f"{url}?{json.dumps(params or {}, sort_keys=True)}"`
computed in `SECHttpClient.get`; an absent/`None` params dict is the
empty list. -/
def cacheKey (url : String) (params : List (String × JVal)) : String :=
  url ++ "?" ++ dumpsObj params

/-- `hashlib.md5(key.encode()).hexdigest()`, abstracted as a
deterministic encoding of the key string (the code relies only on the
digest being a deterministic function of the key). -/
def md5hex (s : String) : String := s

/-- `SimpleCache._get_cache_path`: the per-key file name
`f"{key_hash}.json"` inside the cache directory (the directory prefix
is constant per client and omitted). -/
def cachePath (key : String) : String := md5hex key ++ ".json"

/-- Content of one stored cache file, as `SimpleCache.get` can observe
it: unreadable (`IOError` on open/read), not JSON
(`json.JSONDecodeError`), valid JSON that is not a dict (so
`cached.get` raises `AttributeError`), or a dict with optional
`value` / `expires_at` fields (what `SimpleCache.set` writes). -/
inductive FileContent where
  | unreadable
  | notJson
  | jsonNonDict (v : JVal)
  | record (value : Option JVal) (expiresAt : Option ℚ)
deriving DecidableEq

/-- The cache directory: one entry per file path. -/
abbrev Store := List (String × FileContent)

def storeLookup (st : Store) (p : String) : Option FileContent :=
  (st.find? (fun kv => kv.1 == p)).map (fun kv => kv.2)

def storeErase (st : Store) (p : String) : Store :=
  st.filter (fun kv => !(kv.1 == p))

def storeInsert (st : Store) (p : String) (c : FileContent) : Store :=
  storeErase st p ++ [(p, c)]

/-- `SimpleCache.get(key)`.  Returns the raw Python value (`JVal.null`
for a miss, exactly as the method returns `None`) together with the
store after any lazy deletion; `.error ()` models the uncaught
`AttributeError` raised when the stored JSON is not a dict (the
`except` clause catches only `json.JSONDecodeError` and `IOError`). -/
def cacheGet (st : Store) (now : ℚ) (key : String) :
    Except Unit (JVal × Store) :=
  let path := cachePath key
  match storeLookup st path with
  | none => .ok (.null, st)
  | some .unreadable => .ok (.null, storeErase st path)
  | some .notJson => .ok (.null, storeErase st path)
  | some (.jsonNonDict _) => .error ()
  | some (.record v e) =>
      if e.getD 0 < now then .ok (.null, storeErase st path)
      else .ok (v.getD .null, st)

/-- `SimpleCache.set(key, value, ttl_seconds)`: writes
`{'value': value, 'expires_at': time.time() + ttl_seconds}` under the
key's path, overwriting any prior entry. -/
def cacheSet (st : Store) (now : ℚ) (key : String) (v : JVal) (ttl : ℚ) :
    Store :=
  storeInsert st (cachePath key) (.record (some v) (some (now + ttl)))

/-- The purge loop of `RateLimiter.wait_if_needed`:
`while self.request_times and now - self.request_times[0] > 1.0:
popleft()`. -/
def purge (now : ℚ) : List ℚ → List ℚ
  | [] => []
  | t :: ts => if 1 < now - t then purge now ts else t :: ts

/-- One call of `RateLimiter.wait_if_needed` on a limiter with integral
ceiling `C` (`max_requests_per_second`).  `now` is the value of
`time.time()` on entry; `extra` is the amount by which the
`time.sleep`/re-read of `time.time()` overshoots the requested sleep
(real sleeps last at least the requested duration, so `0 ≤ extra`).
Returns the new timestamp deque and the recorded completion time. -/
def wifStep (C : ℕ) (now extra : ℚ) (st : List ℚ) : List ℚ × ℚ :=
  let ts := purge now st
  if C ≤ ts.length then
    let slp := 1 - (now - ts.headD 0)
    if 0 < slp then
      let w := now + slp + extra
      (purge w ts ++ [w], w)
    else (ts ++ [now], now)
  else (ts ++ [now], now)

/-- Run a sequence of `wait_if_needed` calls; each call is given by its
arrival time and its sleep overshoot.  Returns the list of completion
times. -/
def runRL (C : ℕ) (st : List ℚ) : List (ℚ × ℚ) → List ℚ
  | [] => []
  | c :: rest =>
      (wifStep C c.1 c.2 st).2 :: runRL C (wifStep C c.1 c.2 st).1 rest

/-- Basic well-formedness of a call trace against the running limiter
state: each call arrives no earlier than the previous call's completion
and each sleep overshoot is positive.  This is what any sequential
sequence of real `admit()` calls satisfies. -/
def chronoBasicB (C : ℕ) (st : List ℚ) (last : ℚ) :
    List (ℚ × ℚ) → Bool
  | [] => true
  | c :: rest =>
      decide (last ≤ c.1) && decide (0 < c.2) &&
      chronoBasicB C (wifStep C c.1 c.2 st).1 (wifStep C c.1 c.2 st).2 rest

/-- `chronoBasicB` strengthened by the boundary condition that no call
arrives exactly `1.0` seconds after a timestamp still in the queue
(the comparisons `now - t > 1.0` and `sleep_time > 0` of the source
are strict, so exact one-second coincidences are the degenerate
cases). -/
def chronoB (C : ℕ) (st : List ℚ) (last : ℚ) : List (ℚ × ℚ) → Bool
  | [] => true
  | c :: rest =>
      decide (last ≤ c.1) && decide (0 < c.2) &&
      st.all (fun t => decide (c.1 - t ≠ 1)) &&
      chronoB C (wifStep C c.1 c.2 st).1 (wifStep C c.1 c.2 st).2 rest

/-- Number of completions lying in the trailing closed 1-second window
of completion time `t`, among past completions and `t` itself. -/
def winCount (past : List ℚ) (t : ℚ) : ℕ :=
  (past ++ [t]).countP (fun s => decide (t - s ≤ 1))

/-- The sliding-window property at every completion time of a
completion list, given the completions made before it. -/
def winOKb (C : ℕ) (past : List ℚ) : List ℚ → Bool
  | [] => true
  | t :: rest => decide (winCount past t ≤ C) && winOKb C (past ++ [t]) rest

/-! ### HTTP client -/

abbrev Headers := List (String × String)

/-- Case-insensitive lookup, as in `requests`' `CaseInsensitiveDict`. -/
def hdrGet (hs : Headers) (k : String) : Option String :=
  (hs.find? (fun kv => kv.1.toLower == k.toLower)).map (fun kv => kv.2)

/-- Case-insensitive single-key update. -/
def hdrSet (hs : Headers) (k v : String) : Headers :=
  (hs.filter (fun kv => !(kv.1.toLower == k.toLower))) ++ [(k, v)]

/-- `dict.update` on case-insensitive header dicts. -/
def hdrUpdate (base upd : Headers) : Headers :=
  upd.foldl (fun acc kv => hdrSet acc kv.1 kv.2) base

/-- Immutable per-client settings fixed by `SECHttpClient.__init__`.
The rate ceiling is taken integral (the claims' `C`). -/
structure ClientConfig where
  userAgent : String
  maxRps : ℕ
  timeoutSec : ℕ
  cacheTtl : ℚ
  enableCache : Bool

/-- The constructor defaults of `SECHttpClient`. -/
def cfgDefault : ClientConfig :=
  ⟨"flow_researcher bryan@example.com", 10, 30, 3600, true⟩

/-- The session headers installed by `__init__` via
`self.session.headers.update({...})`. -/
def defaultHeaders (cfg : ClientConfig) : Headers :=
  [("User-Agent", cfg.userAgent),
   ("Accept", "application/json, text/html, */*"),
   ("Accept-Encoding", "gzip, deflate")]

/-- `request_headers = self.session.headers.copy()`, then
`if headers: request_headers.update(headers)`. -/
def mergeHeaders (cfg : ClientConfig) (callerHeaders : Headers) : Headers :=
  if callerHeaders.isEmpty then defaultHeaders cfg
  else hdrUpdate (defaultHeaders cfg) callerHeaders

/-- One wire response, as the transport hands it to the retry layer:
status, body, Content-Type header, and the result of `response.json()`
(`none` when the body does not parse as JSON). -/
structure NetResponse where
  status : ℕ
  body : String
  contentType : Option String
  json : Option JVal
deriving DecidableEq

/-- `status_forcelist=[429, 500, 502, 503, 504]` of the mounted
`Retry`. -/
def statusForcelist : List ℕ := [429, 500, 502, 503, 504]

/-- `allowed_methods=["GET", "HEAD"]` of the mounted `Retry`. -/
def allowedMethods : List String := ["GET", "HEAD"]

/-- `Retry.is_retry`: a response status triggers a retry only when it
is in the forcelist and the method is allowed. -/
def isRetryStatus (method : String) (status : ℕ) : Bool :=
  decide (status ∈ statusForcelist) && decide (method ∈ allowedMethods)

/-- The `urllib3` retry loop under `Retry(total=3, ...)`: the first
argument is the remaining retry budget (`total` counts retries, not
attempts; `increment` raises `MaxRetryError` once the budget is
consumed).  `net i` is the wire response to attempt `i`.  Returns the
terminal response (or the exhaustion error) and the number of attempts
performed. -/
def sessionAttempt (method : String) (net : ℕ → NetResponse) :
    ℕ → ℕ → Except Unit NetResponse × ℕ
  | 0, i =>
      if isRetryStatus method (net i).status then (.error (), i + 1)
      else (.ok (net i), i + 1)
  | fuel + 1, i =>
      if isRetryStatus method (net i).status then
        sessionAttempt method net fuel (i + 1)
      else (.ok (net i), i + 1)

/-- Exceptions escaping `SECHttpClient` methods. -/
inductive PyErr where
  /-- `AttributeError` escaping `SimpleCache.get`. -/
  | attrError
  /-- `Exception(f"HTTP request failed: {e}")`. -/
  | requestFailed
  /-- `Exception(f"Download failed: {e}")`. -/
  | downloadFailed
deriving DecidableEq

deriving instance DecidableEq for Except

/-- The `requests.Response` fields the claims are about. -/
structure HttpResponse where
  status : ℕ
  body : String
  contentType : Option String
deriving DecidableEq

/-- `response.raise_for_status()` raises `HTTPError` exactly for
4xx/5xx statuses. -/
def raiseForStatus (s : ℕ) : Bool := decide (400 ≤ s) && decide (s < 600)

/-- The mutable state owned by one client: its cache directory and the
limiter's timestamp deque. -/
structure ClientState where
  store : Store
  limiter : List ℚ
deriving DecidableEq

/-- Observable outcome of one `SECHttpClient.get` call: the returned
response or raised exception, the post-call state, the headers sent on
the wire (`none` when the network was not touched), and operation
counts. -/
structure GetOut where
  result : Except PyErr HttpResponse
  state : ClientState
  sentHeaders : Option Headers
  netAttempts : ℕ
  limiterCalls : ℕ
  cacheReads : ℕ
  cacheWrites : ℕ
deriving DecidableEq

/-- The network phase of `SECHttpClient.get` (everything after the
cache check): rate-limit, merge headers, perform the session GET with
retries, `raise_for_status`, then cache a 200 JSON body when caching
was requested. -/
def clientNetPhase (cfg : ClientConfig) (store0 : Store) (lim : List ℚ)
    (now extra : ℚ) (url : String) (headers : Headers)
    (params : List (String × JVal)) (useCache : Bool)
    (net : ℕ → NetResponse) (reads : ℕ) : GetOut :=
  let limStep := wifStep cfg.maxRps now extra lim
  let reqHeaders := mergeHeaders cfg headers
  let sres := sessionAttempt "GET" net 3 0
  match sres.1 with
  | .error _ =>
      ⟨.error .requestFailed, ⟨store0, limStep.1⟩, some reqHeaders,
        sres.2, 1, reads, 0⟩
  | .ok r =>
      if raiseForStatus r.status then
        ⟨.error .requestFailed, ⟨store0, limStep.1⟩, some reqHeaders,
          sres.2, 1, reads, 0⟩
      else if useCache && cfg.enableCache && (r.status == 200) then
        match r.json with
        | some jv =>
            ⟨.ok ⟨r.status, r.body, r.contentType⟩,
              ⟨cacheSet store0 limStep.2 (cacheKey url params) jv cfg.cacheTtl,
                limStep.1⟩,
              some reqHeaders, sres.2, 1, reads, 1⟩
        | none =>
            ⟨.ok ⟨r.status, r.body, r.contentType⟩, ⟨store0, limStep.1⟩,
              some reqHeaders, sres.2, 1, reads, 0⟩
      else
        ⟨.ok ⟨r.status, r.body, r.contentType⟩, ⟨store0, limStep.1⟩,
          some reqHeaders, sres.2, 1, reads, 0⟩

/-- `SECHttpClient.get(url, headers, params, use_cache)`.  On a cache
hit (`cached_response is not None`) a success response is synthesized
from the cached payload; otherwise the network phase runs. -/
def clientGet (cfg : ClientConfig) (st : ClientState) (now extra : ℚ)
    (url : String) (headers : Headers) (params : List (String × JVal))
    (useCache : Bool) (net : ℕ → NetResponse) : GetOut :=
  if useCache && cfg.enableCache then
    match cacheGet st.store now (cacheKey url params) with
    | .error _ => ⟨.error .attrError, st, none, 0, 0, 1, 0⟩
    | .ok (v, store1) =>
        if v ≠ JVal.null then
          ⟨.ok ⟨200, dumpJVal v, some "application/json"⟩,
            ⟨store1, st.limiter⟩, none, 0, 0, 1, 0⟩
        else
          clientNetPhase cfg store1 st.limiter now extra url headers params
            useCache net 1
  else
    clientNetPhase cfg st.store st.limiter now extra url headers params
      useCache net 0

/-- `Path(dest_path).absolute()`, abstracted as a deterministic path
normalization. -/
def absolutePath (p : String) : String := p

/-- Observable outcome of one `SECHttpClient.download` call. -/
structure DownloadOut where
  result : Except PyErr String
  state : ClientState
  fs : List String
  netAttempts : ℕ
  limiterCalls : ℕ
deriving DecidableEq

/-- `SECHttpClient.download(url, dest_path, use_cache)`.  `fs` is the
set of existing filesystem paths. -/
def clientDownload (cfg : ClientConfig) (st : ClientState)
    (fs : List String) (now extra : ℚ) (url destPath : String)
    (useCache : Bool) (net : ℕ → NetResponse) : DownloadOut :=
  if useCache && decide (destPath ∈ fs) then
    ⟨.ok (absolutePath destPath), st, fs, 0, 0⟩
  else
    let limStep := wifStep cfg.maxRps now extra st.limiter
    let sres := sessionAttempt "GET" net 3 0
    match sres.1 with
    | .error _ =>
        ⟨.error .downloadFailed, ⟨st.store, limStep.1⟩, fs, sres.2, 1⟩
    | .ok r =>
        if raiseForStatus r.status then
          ⟨.error .downloadFailed, ⟨st.store, limStep.1⟩, fs, sres.2, 1⟩
        else
          ⟨.ok (absolutePath destPath), ⟨st.store, limStep.1⟩,
            if destPath ∈ fs then fs else fs ++ [destPath], sres.2, 1⟩

/-! ### Rate limiter lemmas -/

/-- On a nondecreasing deque the purge loop removes exactly the
timestamps strictly older than one second. -/
theorem purge_eq_filter (now : ℚ) (l : List ℚ) (h : l.Sorted (· ≤ ·)) :
    purge now l = l.filter (fun t => decide (now - t ≤ 1)) := by
  induction l with
  | nil => simp [purge]
  | cons t ts ih =>
    rcases List.pairwise_cons.mp h with ⟨hts, hsorted⟩
    by_cases hlt : 1 < now - t
    · have hnot : (decide (now - t ≤ 1)) = false := by
        simp only [decide_eq_false_iff_not]
        exact not_le.mpr hlt
      simp only [purge, if_pos hlt, List.filter_cons, hnot,
        Bool.false_eq_true, if_false]
      exact ih hsorted
    · have hkeep : (decide (now - t ≤ 1)) = true := by
        simp only [decide_eq_true_eq]
        exact not_lt.mp hlt
      have hall : ∀ s ∈ ts, (fun s => decide (now - s ≤ 1)) s = true := by
        intro s hs
        have := hts s hs
        simp only [decide_eq_true_eq]
        have := not_lt.mp hlt
        linarith
      simp only [purge, if_neg hlt, List.filter_cons, hkeep, if_true]
      rw [List.filter_eq_self.mpr hall]

/-- Filtering by a stronger condition absorbs a previous filter. -/
theorem filter_filter_of_imp {α : Type} (p q : α → Bool) (l : List α)
    (h : ∀ a, q a = true → p a = true) :
    (l.filter p).filter q = l.filter q := by
  induction l with
  | nil => rfl
  | cons a l ih =>
    cases hp : p a with
    | true =>
      cases hq : q a with
      | true => simp [List.filter_cons, hp, hq, ih]
      | false => simp [List.filter_cons, hp, hq, ih]
    | false =>
      have hq : q a = false := by
        cases hqa : q a with
        | false => rfl
        | true => exact absurd (h a hqa) (by simp [hp])
      simp [List.filter_cons, hp, hq, ih]

/-- The inductive invariant of the sliding-window limiter: as long as
calls arrive in order, sleeps strictly overshoot, and no arrival sits
exactly one second after a queued timestamp, the deque always equals
the set of completions inside the trailing closed 1-second window and
its size never exceeds the ceiling. -/
theorem runRL_invariant (C : ℕ) (hC : 0 < C) :
    ∀ (calls : List (ℚ × ℚ)) (hist st : List ℚ) (T : ℚ),
      hist.Sorted (· ≤ ·) →
      (∀ t ∈ hist, t ≤ T) →
      st = hist.filter (fun t => decide (T - t ≤ 1)) →
      st.length ≤ C →
      chronoB C st T calls = true →
      winOKb C hist (runRL C st calls) = true := by
  intro calls
  induction calls with
  | nil =>
    intro hist st T _ _ _ _ _
    simp [runRL, winOKb]
  | cons c rest ih =>
    intro hist st T hsort hbound hst hlen hch
    obtain ⟨a, e⟩ := c
    simp only [chronoB, Bool.and_eq_true, decide_eq_true_eq,
      List.all_eq_true] at hch
    obtain ⟨⟨⟨hTa, he⟩, hbdry⟩, hch2⟩ := hch
    have hstSorted : st.Sorted (· ≤ ·) := by
      rw [hst]; exact hsort.filter _
    have hLfilter : purge a st =
        hist.filter (fun t => decide (a - t ≤ 1)) := by
      rw [purge_eq_filter a st hstSorted, hst]
      refine filter_filter_of_imp _ _ _ ?_
      intro t ht
      simp only [decide_eq_true_eq] at ht ⊢
      linarith
    have hLlen : (purge a st).length ≤ C := by
      calc (purge a st).length
        ≤ st.length := by
            rw [purge_eq_filter a st hstSorted]
            exact List.length_filter_le _ _
        _ ≤ C := hlen
    by_cases hfull : C ≤ (purge a st).length
    · -- the purged deque is at the ceiling: the sleep branch runs
      have hLC : (purge a st).length = C := le_antisymm hLlen hfull
      cases hLcase : purge a st with
      | nil => rw [hLcase] at hLC; simp at hLC; omega
      | cons f Ltl =>
        have hfL : f ∈ purge a st := by rw [hLcase]; exact List.mem_cons_self f Ltl
        have hfhist : f ∈ hist ∧ a - f ≤ 1 := by
          have := hLfilter ▸ hfL
          simpa [List.mem_filter] using this
        have hfst : f ∈ st := by
          rw [hst]
          refine List.mem_filter.mpr ⟨hfhist.1, ?_⟩
          simp only [decide_eq_true_eq]
          linarith [hfhist.2]
        have haflt : a - f < 1 :=
          lt_of_le_of_ne hfhist.2 (hbdry f hfst)
        have hslp : 0 < 1 - (a - f) := by linarith
        have hwif : wifStep C a e st =
            (purge (a + (1 - (a - f)) + e) (purge a st)
                ++ [a + (1 - (a - f)) + e],
              a + (1 - (a - f)) + e) := by
          unfold wifStep
          rw [hLcase]
          simp only [List.headD_cons]
          rw [if_pos (hLcase ▸ hfull), if_pos hslp]
        set w : ℚ := a + (1 - (a - f)) + e with hwdef
        have hwf : w = f + 1 + e := by rw [hwdef]; ring
        have hwa : a < w := by rw [hwdef]; linarith
        have hLsorted : (purge a st).Sorted (· ≤ ·) := by
          rw [hLfilter]; exact hsort.filter _
        have hKfilter : purge w (purge a st) =
            hist.filter (fun t => decide (w - t ≤ 1)) := by
          rw [purge_eq_filter w _ hLsorted, hLfilter]
          refine filter_filter_of_imp _ _ _ ?_
          intro t ht
          simp only [decide_eq_true_eq] at ht ⊢
          linarith
        have hKlen : (purge w (purge a st)).length + 1 ≤ C := by
          have hdrop : (decide (w - f ≤ 1)) = false := by
            simp only [decide_eq_false_iff_not, not_le, hwf]
            linarith
          have : purge w (purge a st) =
              Ltl.filter (fun t => decide (w - t ≤ 1)) := by
            rw [purge_eq_filter w _ hLsorted, hLcase]
            simp only [List.filter_cons, hdrop, Bool.false_eq_true, if_false]
          rw [this]
          have h1 : (Ltl.filter (fun t => decide (w - t ≤ 1))).length ≤
              Ltl.length := List.length_filter_le _ _
          have h2 : Ltl.length + 1 = C := by
            rw [hLcase] at hLC; simpa using hLC
          omega
        have hwinfilter : (hist ++ [w]).filter
            (fun t => decide (w - t ≤ 1)) =
            purge w (purge a st) ++ [w] := by
          rw [List.filter_append, hKfilter]
          simp
        -- run the step and recurse
        rw [runRL, hwif]
        simp only [winOKb, Bool.and_eq_true, decide_eq_true_eq]
        constructor
        · unfold winCount
          rw [List.countP_eq_length_filter, hwinfilter]
          simpa using hKlen
        · refine ih (hist ++ [w]) (purge w (purge a st) ++ [w]) w ?_ ?_ ?_ ?_ ?_
          · show List.Pairwise (· ≤ ·) (hist ++ [w])
            rw [List.pairwise_append]
            refine ⟨hsort, by simp, ?_⟩
            intro t ht s hs
            rw [List.mem_singleton.mp hs]
            have := hbound t ht
            linarith
          · intro t ht
            rcases List.mem_append.mp ht with h | h
            · have := hbound t h; linarith
            · rw [List.mem_singleton.mp h]
          · rw [hwinfilter]
          · simpa using hKlen
          · rw [hwif] at hch2; exact hch2
    · -- below the ceiling: admit immediately
      have hwif : wifStep C a e st = (purge a st ++ [a], a) := by
        unfold wifStep
        rw [if_neg hfull]
      have hwinfilter : (hist ++ [a]).filter
          (fun t => decide (a - t ≤ 1)) = purge a st ++ [a] := by
        rw [List.filter_append, hLfilter]
        simp
      rw [runRL, hwif]
      simp only [winOKb, Bool.and_eq_true, decide_eq_true_eq]
      constructor
      · unfold winCount
        rw [List.countP_eq_length_filter, hwinfilter]
        simp only [List.length_append, List.length_cons, List.length_nil]
        omega
      · refine ih (hist ++ [a]) (purge a st ++ [a]) a ?_ ?_ ?_ ?_ ?_
        · show List.Pairwise (· ≤ ·) (hist ++ [a])
          rw [List.pairwise_append]
          refine ⟨hsort, by simp, ?_⟩
          intro t ht s hs
          rw [List.mem_singleton.mp hs]
          have := hbound t ht
          linarith
        · intro t ht
          rcases List.mem_append.mp ht with h | h
          · have := hbound t h; linarith
          · rw [List.mem_singleton.mp h]
        · rw [hwinfilter]
        · simp only [List.length_append, List.length_cons, List.length_nil]
          omega
        · rw [hwif] at hch2; exact hch2

/-! ### Claim theorems: C1 -/

/-- C1 (counterexample).  The claim as stated fails on the code: with
ceiling `C = 1`, the well-formed call sequence arriving at times
`0, 1, 1` (each call arriving no earlier than the previous completion,
positive sleep overshoots) completes at times `0, 1, 1`, and the
trailing 1-second window at the third completion contains two
completions.  The purge comparison `now - t > 1.0` and the sleep guard
`sleep_time > 0` are strict, so a call arriving exactly one second
after a queued timestamp is admitted without any wait. -/
theorem rateLimiter_window_bound_cex :
    chronoBasicB 1 [] 0 [(0, 1), (1, 1), (1, 1)] = true ∧
    runRL 1 [] [(0, 1), (1, 1), (1, 1)] = [0, 1, 1] ∧
    winOKb 1 [] (runRL 1 [] [(0, 1), (1, 1), (1, 1)]) = false := by
  refine ⟨?_, ?_, ?_⟩
  · norm_num [chronoBasicB, wifStep, purge]
  · norm_num [runRL, wifStep, purge]
  · norm_num [winOKb, winCount, runRL, wifStep, purge,
      List.countP_cons, List.countP_nil]

/-- C1 (amended).  For every sequence of `admit()` calls on one limiter
with ceiling `C > 0` in which each call arrives no earlier than the
previous call's completion, every sleep wakes strictly after the
requested duration, and no call arrives exactly one second after a
timestamp still in the queue, no trailing closed 1-second window
measured at a call-completion time ever contains more than `C`
completions.  (`admit()` itself is modeled by the total function
`wifStep`, so every call returns.) -/
theorem rateLimiter_window_bound_amended (C : ℕ) (T0 : ℚ)
    (calls : List (ℚ × ℚ)) (hC : 0 < C)
    (h : chronoB C [] T0 calls = true) :
    winOKb C [] (runRL C [] calls) = true := by
  refine runRL_invariant C hC calls [] [] T0 ?_ ?_ ?_ ?_ h
  · exact List.sorted_nil
  · intro t ht; exact absurd ht (List.not_mem_nil t)
  · simp
  · simp

/-- Witness for C1 (amended) at a concrete trace: ceiling 2, arrivals
`0, 1/4, 1/2`; the third call sleeps until `3/2` plus overshoot. -/
theorem rateLimiter_window_bound_amended_witness :
    winOKb 2 [] (runRL 2 [] [(0, 1), (1/4, 1), (1/2, 1)]) = true :=
  rateLimiter_window_bound_amended 2 0 [(0, 1), (1/4, 1), (1/2, 1)]
    (by norm_num)
    (by norm_num [chronoB, wifStep, purge])

/-! ### Cache lemmas -/

/-- Looking up the path just written by `storeInsert` finds the new
content. -/
theorem storeLookup_insert_self (st : Store) (p : String)
    (c : FileContent) : storeLookup (storeInsert st p c) p = some c := by
  unfold storeLookup storeInsert storeErase
  induction st with
  | nil => simp
  | cons kv st ih =>
    cases hkv : kv.1 == p with
    | true => simp [List.filter_cons, hkv, ih]
    | false => simp [List.filter_cons, hkv, ih]

/-- `SimpleCache.get` after `SimpleCache.set`, fresh case: for any
elapsed time `e ≤ ttl` the stored value is returned unchanged and
nothing is deleted. -/
theorem cacheGet_after_set_fresh (st : Store) (now e ttl : ℚ)
    (key : String) (v : JVal) (hfresh : e ≤ ttl) :
    cacheGet (cacheSet st now key v ttl) (now + e) key =
      .ok (v, cacheSet st now key v ttl) := by
  simp only [cacheGet, cacheSet, storeLookup_insert_self]
  have hnot : ¬ ((some (now + ttl)).getD 0 < now + e) := by
    simp only [Option.getD_some, not_lt]
    linarith
  rw [if_neg hnot]
  simp

/-- `SimpleCache.get` after `SimpleCache.set`, stale case: for any
elapsed time `e > ttl` the entry is deleted and a miss is returned. -/
theorem cacheGet_after_set_stale (st : Store) (now e ttl : ℚ)
    (key : String) (v : JVal) (hstale : ttl < e) :
    cacheGet (cacheSet st now key v ttl) (now + e) key =
      .ok (.null, storeErase (cacheSet st now key v ttl) (cachePath key)) := by
  simp only [cacheGet, cacheSet, storeLookup_insert_self]
  have hlt : ((some (now + ttl)).getD 0 < now + e) := by
    simp only [Option.getD_some]
    linarith
  rw [if_pos hlt]

/-! ### Claim theorems: C3 -/

/-- C3 (counterexample).  The claim as stated fails at the boundary:
writing value `7` with `ttl = 1` at time `0` and reading at elapsed
time exactly `ttl` (time `1`) still returns `7`, because the expiry
test of `SimpleCache.get` is the strict `time.time() > expires_at`;
the claim requires absent for every elapsed time `>= ttl`. -/
theorem cache_ttl_cex :
    cacheGet (cacheSet [] 0 "k" (.num 7) 1) 1 "k" =
      .ok (.num 7, cacheSet [] 0 "k" (.num 7) 1) ∧
    JVal.num 7 ≠ JVal.null := by
  constructor
  · have h := cacheGet_after_set_fresh [] 0 1 1 "k" (.num 7) le_rfl
    simpa using h
  · simp

/-- C3 (amended).  For every key, value `v` and `ttl`: a `read(key)`
after `write(key, v, ttl)` returns `v` whenever the elapsed time is
`≤ ttl`, and returns absent while deleting the stale entry whenever
the elapsed time is `> ttl`.  (The returned `JVal.null` is exactly the
Python `None` the method returns on a miss.) -/
theorem cache_ttl_amended (st : Store) (now e ttl : ℚ) (key : String)
    (v : JVal) :
    (e ≤ ttl → cacheGet (cacheSet st now key v ttl) (now + e) key =
      .ok (v, cacheSet st now key v ttl)) ∧
    (ttl < e → cacheGet (cacheSet st now key v ttl) (now + e) key =
      .ok (.null, storeErase (cacheSet st now key v ttl) (cachePath key))) :=
  ⟨fun h => cacheGet_after_set_fresh st now e ttl key v h,
   fun h => cacheGet_after_set_stale st now e ttl key v h⟩

/-- Witness for C3 (amended): value `5` under key `"k"` with
`ttl = 2`, written at time `10`, read at elapsed times `1` and `3`. -/
theorem cache_ttl_amended_witness :
    cacheGet (cacheSet [] 10 "k" (.num 5) 2) (10 + 1) "k" =
      .ok (.num 5, cacheSet [] 10 "k" (.num 5) 2) ∧
    cacheGet (cacheSet [] 10 "k" (.num 5) 2) (10 + 3) "k" =
      .ok (.null, storeErase (cacheSet [] 10 "k" (.num 5) 2)
        (cachePath "k")) :=
  ⟨(cache_ttl_amended [] 10 1 2 "k" (.num 5)).1 (by norm_num),
   (cache_ttl_amended [] 10 3 2 "k" (.num 5)).2 (by norm_num)⟩

/-! ### Claim theorems: C4 -/

/-- C4 (counterexample).  A stored entry that is valid JSON but not a
`{value, expires_at}` dict (here the JSON number `3`) makes
`cached.get('expires_at', 0)` raise `AttributeError`, which the
`except (json.JSONDecodeError, IOError)` clause does not catch: the
whole `get` call — and with it the caller's request — fails instead of
being treated as a cache miss. -/
theorem cache_corrupt_cex :
    (clientGet cfgDefault
        ⟨[(cachePath (cacheKey "u" []), .jsonNonDict (.num 3))], []⟩
        0 1 "u" [] [] true (fun _ => ⟨200, "b", some "text/html", none⟩)
      ).result = .error .attrError := by
  simp [clientGet, cfgDefault, cacheGet, storeLookup]

/-- C4 (amended).  For every stored cache entry whose content is
unreadable (`IOError`) or not valid JSON (`json.JSONDecodeError`),
`read(key)` treats it as absent, deletes the entry and returns without
raising; a valid-JSON entry that is not a dict instead raises an
uncaught error. -/
theorem cache_corrupt_amended (st : Store) (now : ℚ) (key : String)
    (h : storeLookup st (cachePath key) = some .notJson ∨
         storeLookup st (cachePath key) = some .unreadable) :
    cacheGet st now key = .ok (.null, storeErase st (cachePath key)) := by
  rcases h with h | h <;> simp [cacheGet, h]

/-- Witness for C4 (amended) on a store holding one undecodable entry
under the key's path. -/
theorem cache_corrupt_amended_witness :
    cacheGet [(cachePath "k", FileContent.notJson)] 0 "k" =
      .ok (.null, storeErase [(cachePath "k", FileContent.notJson)]
        (cachePath "k")) :=
  cache_corrupt_amended [(cachePath "k", FileContent.notJson)] 0 "k"
    (Or.inl (by simp [storeLookup]))

/-! ### Retry lemmas -/

/-- The retry loop performs at most `fuel + 1` attempts beyond the
starting index. -/
theorem sessionAttempt_count_le (method : String) (net : ℕ → NetResponse) :
    ∀ (fuel i : ℕ), (sessionAttempt method net fuel i).2 ≤ i + fuel + 1 := by
  intro fuel
  induction fuel with
  | zero =>
    intro i
    unfold sessionAttempt
    split <;> simp
  | succ f ih =>
    intro i
    unfold sessionAttempt
    split
    · calc (sessionAttempt method net f (i + 1)).2
          ≤ (i + 1) + f + 1 := ih (i + 1)
        _ ≤ i + (f + 1) + 1 := by omega
    · omega

/-- The network phase reports exactly the attempt count of the retry
loop. -/
theorem clientNetPhase_netAttempts (cfg : ClientConfig) (store0 : Store)
    (lim : List ℚ) (now extra : ℚ) (url : String) (hdrs : Headers)
    (params : List (String × JVal)) (useCache : Bool)
    (net : ℕ → NetResponse) (reads : ℕ) :
    (clientNetPhase cfg store0 lim now extra url hdrs params useCache net
      reads).netAttempts = (sessionAttempt "GET" net 3 0).2 := by
  simp only [clientNetPhase]
  repeat' split
  all_goals rfl

/-- Fixed servers used in the retry scenarios. -/
def respOf (s : ℕ) (b : String) : NetResponse :=
  ⟨s, b, some "application/json", none⟩

/-- Answers 503 twice, then 200. -/
def net503x2 : ℕ → NetResponse :=
  fun i => if i < 2 then respOf 503 "e" else respOf 200 "okbody"

/-- Answers 503 three times, then 200. -/
def net503x3 : ℕ → NetResponse :=
  fun i => if i < 3 then respOf 503 "e" else respOf 200 "late"

/-- Always answers 503. -/
def net503all : ℕ → NetResponse := fun _ => respOf 503 "e"

/-- Always answers 404. -/
def net404 : ℕ → NetResponse := fun _ => respOf 404 "nf"

/-! ### Claim theorems: C2 -/

/-- C2 (counterexample).  `Retry(total=3)` budgets three *retries*, so
`fetch` makes up to four attempts: against a URL answering
503, 503, 503, 200 the call does not fail with `RequestFailed` — it
succeeds on the fourth attempt and returns the 200 body, contradicting
both "at most 3 total attempts" and "503 three times in a row fails". -/
theorem retry_policy_cex :
    (clientGet cfgDefault ⟨[], []⟩ 0 1 "u" [] [] false net503x3).result =
      .ok ⟨200, "late", some "application/json"⟩ ∧
    (clientGet cfgDefault ⟨[], []⟩ 0 1 "u" [] [] false net503x3).netAttempts
      = 4 := by
  constructor <;>
    norm_num [clientGet, clientNetPhase, cfgDefault, sessionAttempt,
      net503x3, respOf, isRetryStatus, statusForcelist, allowedMethods,
      raiseForStatus]

/-- C2 (amended).  `fetch` performs at most 4 total attempts per
request (one initial attempt plus up to 3 retries), retries only
status codes 429/500/502/503/504 and only safe methods (GET/HEAD):
a URL answering 503, 503, 200 succeeds on the third attempt and
returns the 200 body; a URL answering 503 on four consecutive attempts
fails with `RequestFailed` after 4 attempts; a 404 fails immediately
after a single attempt. -/
theorem retry_policy_amended :
    (∀ (cfg : ClientConfig) (st : ClientState) (now extra : ℚ)
        (url : String) (hdrs : Headers) (params : List (String × JVal))
        (useCache : Bool) (net : ℕ → NetResponse),
      (clientGet cfg st now extra url hdrs params useCache net).netAttempts
        ≤ 4) ∧
    (∀ s, isRetryStatus "GET" s = decide (s ∈ statusForcelist)) ∧
    isRetryStatus "POST" 503 = false ∧
    ((clientGet cfgDefault ⟨[], []⟩ 0 1 "u" [] [] false net503x2).result =
        .ok ⟨200, "okbody", some "application/json"⟩ ∧
      (clientGet cfgDefault ⟨[], []⟩ 0 1 "u" [] [] false
        net503x2).netAttempts = 3) ∧
    ((clientGet cfgDefault ⟨[], []⟩ 0 1 "u" [] [] false net503all).result =
        .error .requestFailed ∧
      (clientGet cfgDefault ⟨[], []⟩ 0 1 "u" [] [] false
        net503all).netAttempts = 4) ∧
    ((clientGet cfgDefault ⟨[], []⟩ 0 1 "u" [] [] false net404).result =
        .error .requestFailed ∧
      (clientGet cfgDefault ⟨[], []⟩ 0 1 "u" [] [] false
        net404).netAttempts = 1) := by
  refine ⟨?_, ?_, ?_, ?_, ?_, ?_⟩
  · intro cfg st now extra url hdrs params useCache net
    have hsess := sessionAttempt_count_le "GET" net 3 0
    have hphase := fun store0 lim reads =>
      clientNetPhase_netAttempts cfg store0 lim now extra url hdrs params
        useCache net reads
    unfold clientGet
    split
    · split
      · simp
      · split
        · simp
        · rw [hphase]; omega
    · rw [hphase]; omega
  · intro s
    simp [isRetryStatus, allowedMethods]
  · norm_num [isRetryStatus, allowedMethods, statusForcelist]
    exact ⟨by decide, by decide⟩
  · constructor <;>
      norm_num [clientGet, clientNetPhase, cfgDefault, sessionAttempt,
        net503x2, respOf, isRetryStatus, statusForcelist, allowedMethods,
        raiseForStatus]
  · constructor <;>
      norm_num [clientGet, clientNetPhase, cfgDefault, sessionAttempt,
        net503all, respOf, isRetryStatus, statusForcelist, allowedMethods,
        raiseForStatus]
  · constructor <;>
      norm_num [clientGet, clientNetPhase, cfgDefault, sessionAttempt,
        net404, respOf, isRetryStatus, statusForcelist, allowedMethods,
        raiseForStatus]

/-! ### Header lemmas -/

/-- `find?` skips a filter that only removes elements the predicate
rejects. -/
theorem find?_filter_of_imp {α : Type} (p q : α → Bool) (l : List α)
    (h : ∀ a, p a = true → q a = true) :
    (l.filter q).find? p = l.find? p := by
  induction l with
  | nil => rfl
  | cons a l ih =>
    cases hq : q a with
    | true =>
      cases hp : p a with
      | true => simp [List.filter_cons, hq, hp]
      | false => simp [List.filter_cons, hq, hp, ih]
    | false =>
      have hp : p a = false := by
        cases hpa : p a with
        | false => rfl
        | true => exact absurd (h a hpa) (by simp [hq])
      simp [List.filter_cons, hq, hp, ih]

/-- Updating a header key that case-insensitively matches the looked-up
key yields the new value. -/
theorem hdrGet_set_match (base : Headers) (k1 v1 k : String)
    (h : k1.toLower = k.toLower) :
    hdrGet (hdrSet base k1 v1) k = some v1 := by
  unfold hdrGet hdrSet
  have hleft : (base.filter
      (fun kv => !(kv.1.toLower == k1.toLower))).find?
      (fun kv => kv.1.toLower == k.toLower) = none := by
    rw [List.find?_eq_none]
    intro kv hkv
    have hq := (List.mem_filter.mp hkv).2
    simp only [Bool.not_eq_eq_eq_not, Bool.not_true, beq_eq_false_iff_ne,
      ne_eq] at hq
    simp only [beq_iff_eq, ← h]
    exact hq
  rw [List.find?_append, hleft, Option.none_or]
  simp [h]

/-- Updating a header key that does not match the looked-up key leaves
the lookup unchanged. -/
theorem hdrGet_set_miss (base : Headers) (k1 v1 k : String)
    (h : ¬ k1.toLower = k.toLower) :
    hdrGet (hdrSet base k1 v1) k = hdrGet base k := by
  unfold hdrGet hdrSet
  rw [List.find?_append]
  have hleft : (base.filter
      (fun kv => !(kv.1.toLower == k1.toLower))).find?
      (fun kv => kv.1.toLower == k.toLower) =
      base.find? (fun kv => kv.1.toLower == k.toLower) := by
    refine find?_filter_of_imp _ _ _ ?_
    intro kv hkv
    simp only [beq_iff_eq] at hkv
    simp only [Bool.not_eq_eq_eq_not, Bool.not_true, beq_eq_false_iff_ne,
      ne_eq, hkv]
    intro hcontra
    exact h (hcontra ▸ rfl)
  have hright : (([(k1, v1)] : Headers)).find?
      (fun kv => kv.1.toLower == k.toLower) = none := by
    simp [h]
  rw [hleft, hright]
  cases base.find? (fun kv => kv.1.toLower == k.toLower) <;> rfl

/-- A caller update that contains no entry for `k` (case-insensitively)
does not change the lookup of `k`. -/
theorem hdrGet_update_of_none (k : String) :
    ∀ (upd base : Headers), hdrGet upd k = none →
      hdrGet (hdrUpdate base upd) k = hdrGet base k := by
  intro upd
  induction upd with
  | nil => intro base _; rfl
  | cons kv upd ih =>
    intro base hnone
    unfold hdrGet at hnone
    rw [List.find?_cons] at hnone
    cases hp : (kv.1.toLower == k.toLower) with
    | true => rw [hp] at hnone; simp at hnone
    | false =>
      rw [hp] at hnone
      have hne : ¬ kv.1.toLower = k.toLower := by
        simpa using hp
      have hupd : hdrGet upd k = none := hnone
      show hdrGet (hdrUpdate (hdrSet base kv.1 kv.2) upd) k = hdrGet base k
      rw [ih (hdrSet base kv.1 kv.2) hupd, hdrGet_set_miss base kv.1 kv.2 k hne]

/-- Updates never remove a present header key. -/
theorem hdrGet_update_isSome (k : String) :
    ∀ (upd base : Headers), (hdrGet base k).isSome = true →
      (hdrGet (hdrUpdate base upd) k).isSome = true := by
  intro upd
  induction upd with
  | nil => intro base h; exact h
  | cons kv upd ih =>
    intro base h
    show (hdrGet (hdrUpdate (hdrSet base kv.1 kv.2) upd) k).isSome = true
    by_cases hm : kv.1.toLower = k.toLower
    · refine ih _ ?_
      rw [hdrGet_set_match base kv.1 kv.2 k hm]
      rfl
    · refine ih _ ?_
      rw [hdrGet_set_miss base kv.1 kv.2 k hm]
      exact h

/-- The default session headers carry the configured identifying
header. -/
theorem hdrGet_defaults_ua (cfg : ClientConfig) :
    hdrGet (defaultHeaders cfg) "User-Agent" = some cfg.userAgent := by
  simp [hdrGet, defaultHeaders]

/-! ### Claim theorems: C5 -/

/-- C5 (counterexample).  `request_headers.update(headers)` lets the
caller override the identifying header: with the default (non-empty)
configured User-Agent, a caller passing `{'User-Agent': ''}` makes the
headers sent on the wire carry an empty User-Agent value. -/
theorem user_agent_cex :
    cfgDefault.userAgent ≠ "" ∧
    (clientGet cfgDefault ⟨[], []⟩ 0 1 "u" [("User-Agent", "")] [] false
        net404).sentHeaders =
      some (mergeHeaders cfgDefault [("User-Agent", "")]) ∧
    hdrGet (mergeHeaders cfgDefault [("User-Agent", "")]) "User-Agent" =
      some "" := by
  refine ⟨by simp [cfgDefault], ?_, ?_⟩
  · simp only [clientGet, clientNetPhase, cfgDefault]
    repeat' split
    all_goals simp_all
  · show hdrGet (hdrUpdate (defaultHeaders cfgDefault)
      [("User-Agent", "")]) "User-Agent" = some ""
    show hdrGet (hdrSet (defaultHeaders cfgDefault) "User-Agent" "")
      "User-Agent" = some ""
    exact hdrGet_set_match _ _ _ _ rfl

/-- C5 (amended).  For every fetch that reaches the network, the
request headers sent are `mergeHeaders` of the session defaults and
the caller's headers; the merged headers always contain a User-Agent
entry, and when the caller supplies no User-Agent header
(case-insensitively) its value is exactly the client's configured
`user_agent` string.  A caller-supplied User-Agent (even an empty one)
overrides it. -/
theorem user_agent_amended (cfg : ClientConfig) (hs : Headers) :
    (∀ (st : ClientState) (now extra : ℚ) (url : String)
        (params : List (String × JVal)) (useCache : Bool)
        (net : ℕ → NetResponse),
      (clientGet cfg st now extra url hs params useCache net).sentHeaders
          = none ∨
        (clientGet cfg st now extra url hs params useCache net).sentHeaders
          = some (mergeHeaders cfg hs)) ∧
    (hdrGet (mergeHeaders cfg hs) "User-Agent").isSome = true ∧
    (hdrGet hs "User-Agent" = none →
      hdrGet (mergeHeaders cfg hs) "User-Agent" = some cfg.userAgent) := by
  refine ⟨?_, ?_, ?_⟩
  · intro st now extra url params useCache net
    simp only [clientGet, clientNetPhase]
    repeat' split
    all_goals simp
  · unfold mergeHeaders
    split
    · rw [hdrGet_defaults_ua]; rfl
    · refine hdrGet_update_isSome "User-Agent" hs (defaultHeaders cfg) ?_
      rw [hdrGet_defaults_ua]; rfl
  · intro hnone
    unfold mergeHeaders
    split
    · exact hdrGet_defaults_ua cfg
    · rw [hdrGet_update_of_none "User-Agent" hs (defaultHeaders cfg) hnone]
      exact hdrGet_defaults_ua cfg

/-- Witness for C5 (amended): a caller supplying no headers gets the
configured User-Agent on the wire. -/
theorem user_agent_amended_witness :
    hdrGet (mergeHeaders cfgDefault []) "User-Agent" =
      some cfgDefault.userAgent :=
  (user_agent_amended cfgDefault []).2.2 rfl

/-! ### Cache key lemmas -/

/-- Two association lists with the same entries (a permutation) and
duplicate-free keys canonicalize to the same sorted list. -/
theorem sortParams_eq_of_perm (p q : List (String × JVal))
    (hnd : (p.map Prod.fst).Nodup) (hperm : p.Perm q) :
    sortParams p = sortParams q := by
  have hp1 : (sortParams p).Perm p := List.perm_insertionSort keyLe p
  have hq1 : (sortParams q).Perm q := List.perm_insertionSort keyLe q
  have hsp : List.Sorted keyLe (sortParams p) :=
    List.sorted_insertionSort keyLe p
  have hsq : List.Sorted keyLe (sortParams q) :=
    List.sorted_insertionSort keyLe q
  have hndp : ((sortParams p).map Prod.fst).Nodup :=
    ((hp1.map Prod.fst).nodup_iff).mpr hnd
  have hndq : ((sortParams q).map Prod.fst).Nodup :=
    ((hq1.map Prod.fst).nodup_iff).mpr
      (((hperm.map Prod.fst).nodup_iff).mp hnd)
  have hnep : (sortParams p).Pairwise (fun a b => a.1 ≠ b.1) :=
    List.pairwise_map.mp hndp
  have hneq : (sortParams q).Pairwise (fun a b => a.1 ≠ b.1) :=
    List.pairwise_map.mp hndq
  have hsp2 : List.Sorted keyLt (sortParams p) :=
    (hsp.and hnep).imp (fun h => lt_of_le_of_ne h.1 h.2)
  have hsq2 : List.Sorted keyLt (sortParams q) :=
    (hsq.and hneq).imp (fun h => lt_of_le_of_ne h.1 h.2)
  exact List.eq_of_perm_of_sorted
    (hp1.trans (hperm.trans hq1.symm)) hsp2 hsq2

/-! ### Claim theorems: C6 -/

/-- C6.  Cache key derivation is order-independent: for every URL and
every pair of query-parameter maps that are equal as maps (the same
key-value pairs, duplicate-free keys, in any order), the serialized
cache key — and hence the hashed cache file path — is identical. -/
theorem cache_key_order_independent (url : String)
    (p q : List (String × JVal)) (hnd : (p.map Prod.fst).Nodup)
    (hperm : p.Perm q) :
    cacheKey url p = cacheKey url q ∧
    cachePath (cacheKey url p) = cachePath (cacheKey url q) := by
  have hkey : cacheKey url p = cacheKey url q := by
    unfold cacheKey dumpsObj
    rw [sortParams_eq_of_perm p q hnd hperm]
  exact ⟨hkey, by rw [hkey]⟩

/-- Witness for C6 on the spec's example `{a:1, b:2}` vs `{b:2, a:1}`. -/
theorem cache_key_order_independent_witness :
    cacheKey "https://x" [("a", .num 1), ("b", .num 2)] =
      cacheKey "https://x" [("b", .num 2), ("a", .num 1)] :=
  (cache_key_order_independent "https://x"
    [("a", JVal.num 1), ("b", JVal.num 2)]
    [("b", JVal.num 2), ("a", JVal.num 1)]
    (by simp)
    (List.Perm.swap ("b", JVal.num 2) ("a", JVal.num 1) [])).1

/-! ### Cache-hit lemma -/

/-- Shared helper: a fetch with `use_cache=True`, caching enabled and a
fresh, non-null cached record returns the synthesized response and
changes nothing. -/
theorem clientGet_cache_hit (cfg : ClientConfig) (store : Store)
    (lim : List ℚ) (now extra : ℚ) (url : String) (hdrs : Headers)
    (params : List (String × JVal)) (net : ℕ → NetResponse)
    (v : JVal) (exp : ℚ)
    (hcache : cfg.enableCache = true)
    (hlook : storeLookup store (cachePath (cacheKey url params)) =
      some (.record (some v) (some exp)))
    (hfresh : ¬ exp < now) (hv : v ≠ JVal.null) :
    clientGet cfg ⟨store, lim⟩ now extra url hdrs params true net =
      ⟨.ok ⟨200, dumpJVal v, some "application/json"⟩, ⟨store, lim⟩,
        none, 0, 0, 1, 0⟩ := by
  have hget : cacheGet store now (cacheKey url params) = .ok (v, store) := by
    simp only [cacheGet, hlook, Option.getD_some]
    rw [if_neg hfresh]
  unfold clientGet
  simp [hcache, hget, hv]

/-- Store with a fresh cached `null` payload for `GET "u"` with no
params. -/
def nullHitStore : Store :=
  [(cachePath (cacheKey "u" []), .record (some JVal.null) (some 100))]

/-! ### Claim theorems: C7 -/

/-- C7 (counterexample).  An unexpired cached entry whose payload is
JSON `null` (a cacheable body: the literal `null` parses as JSON) is
rejected by the `cached_response is not None` test, so the fetch falls
through to the rate limiter and the network even though an unexpired
entry for the computed key exists. -/
theorem cache_hit_frame_cex :
    storeLookup nullHitStore (cachePath (cacheKey "u" [])) =
      some (.record (some JVal.null) (some 100)) ∧
    ¬ ((100 : ℚ) < 0) ∧
    (clientGet cfgDefault ⟨nullHitStore, []⟩ 0 1 "u" [] [] true
      net404).limiterCalls = 1 ∧
    (clientGet cfgDefault ⟨nullHitStore, []⟩ 0 1 "u" [] [] true
      net404).netAttempts = 1 := by
  refine ⟨by simp [nullHitStore, storeLookup], by norm_num, ?_, ?_⟩ <;>
    norm_num [clientGet, clientNetPhase, cacheGet, nullHitStore,
      storeLookup, cfgDefault, sessionAttempt, net404, respOf,
      isRetryStatus, statusForcelist, allowedMethods, raiseForStatus]

/-- C7 (amended).  For every fetch with `use_cache=true`, caching
enabled, and an unexpired cached entry with a non-null payload for the
computed key, the call returns a synthesized success response built
from the cached payload, performs no network attempt, and leaves the
rate limiter's timestamp sequence (and the store) untouched.  An
unexpired entry whose payload is null is instead treated as a miss. -/
theorem cache_hit_frame_amended (cfg : ClientConfig) (store : Store)
    (lim : List ℚ) (now extra : ℚ) (url : String) (hdrs : Headers)
    (params : List (String × JVal)) (net : ℕ → NetResponse)
    (v : JVal) (exp : ℚ)
    (hcache : cfg.enableCache = true)
    (hlook : storeLookup store (cachePath (cacheKey url params)) =
      some (.record (some v) (some exp)))
    (hfresh : ¬ exp < now) (hv : v ≠ JVal.null) :
    clientGet cfg ⟨store, lim⟩ now extra url hdrs params true net =
      ⟨.ok ⟨200, dumpJVal v, some "application/json"⟩, ⟨store, lim⟩,
        none, 0, 0, 1, 0⟩ :=
  clientGet_cache_hit cfg store lim now extra url hdrs params net v exp
    hcache hlook hfresh hv

/-- Store with a fresh cached `5` payload for `GET "u"` with no
params. -/
def numHitStore : Store :=
  [(cachePath (cacheKey "u" []), .record (some (JVal.num 5)) (some 10))]

/-- Witness for C7 (amended) on a store holding a fresh numeric
payload. -/
theorem cache_hit_frame_amended_witness :
    clientGet cfgDefault ⟨numHitStore, []⟩ 0 1 "u" [] [] true net404 =
      ⟨.ok ⟨200, dumpJVal (JVal.num 5), some "application/json"⟩,
        ⟨numHitStore, []⟩, none, 0, 0, 1, 0⟩ :=
  cache_hit_frame_amended cfgDefault numHitStore [] 0 1 "u" [] [] net404
    (JVal.num 5) 10 rfl (by simp [numHitStore, storeLookup])
    (by norm_num) (by simp)

/-! ### Claim theorems: C10 -/

/-- C10.  Every fetch served from the cache returns a response with
status code 200, a Content-Type of `application/json`, and a body that
is the JSON re-serialization of the cached payload — whatever status
and headers the original network response had are not preserved across
the cache. -/
theorem cached_fetch_response_shape (cfg : ClientConfig) (store : Store)
    (lim : List ℚ) (now extra : ℚ) (url : String) (hdrs : Headers)
    (params : List (String × JVal)) (net : ℕ → NetResponse)
    (v : JVal) (exp : ℚ)
    (hcache : cfg.enableCache = true)
    (hlook : storeLookup store (cachePath (cacheKey url params)) =
      some (.record (some v) (some exp)))
    (hfresh : ¬ exp < now) (hv : v ≠ JVal.null) :
    (clientGet cfg ⟨store, lim⟩ now extra url hdrs params true net).result
      = .ok ⟨200, dumpJVal v, some "application/json"⟩ := by
  rw [clientGet_cache_hit cfg store lim now extra url hdrs params net v exp
    hcache hlook hfresh hv]

/-- Witness for C10 on the same concrete store. -/
theorem cached_fetch_response_shape_witness :
    (clientGet cfgDefault ⟨numHitStore, []⟩ 0 1 "u" [] [] true
      net404).result =
      .ok ⟨200, dumpJVal (JVal.num 5), some "application/json"⟩ :=
  cached_fetch_response_shape cfgDefault numHitStore [] 0 1 "u" [] []
    net404 (JVal.num 5) 10 rfl (by simp [numHitStore, storeLookup])
    (by norm_num) (by simp)

/-! ### Claim theorems: C8 -/

/-- C8.  A download with `use_cache=true` to a destination that already
exists returns the absolute destination path immediately: zero rate
limiter admissions, zero network attempts, and no state or filesystem
change — regardless of the existing file's age or content (only
existence is ever checked). -/
theorem download_existing_dest (cfg : ClientConfig) (st : ClientState)
    (fs : List String) (now extra : ℚ) (url destPath : String)
    (net : ℕ → NetResponse) (h : destPath ∈ fs) :
    clientDownload cfg st fs now extra url destPath true net =
      ⟨.ok (absolutePath destPath), st, fs, 0, 0⟩ := by
  simp [clientDownload, h]

/-- Witness for C8: downloading over the already-present `"a.json"`. -/
theorem download_existing_dest_witness :
    clientDownload cfgDefault ⟨[], []⟩ ["a.json"] 0 1 "u" "a.json" true
      net404 = ⟨.ok (absolutePath "a.json"), ⟨[], []⟩, ["a.json"], 0, 0⟩ :=
  download_existing_dest cfgDefault ⟨[], []⟩ ["a.json"] 0 1 "u" "a.json"
    net404 (by simp)

/-! ### Claim theorems: C9 -/

/-- C9.  A fetch with `use_cache=false` never reads or writes the
cache: the read and write counts are zero and the stored cache
contents after the call are identical to before, whatever was cached
for that key — on the success path and on every failure path alike. -/
theorem no_cache_frame (cfg : ClientConfig) (st : ClientState)
    (now extra : ℚ) (url : String) (hdrs : Headers)
    (params : List (String × JVal)) (net : ℕ → NetResponse) :
    (clientGet cfg st now extra url hdrs params false net).cacheReads = 0 ∧
    (clientGet cfg st now extra url hdrs params false net).cacheWrites = 0 ∧
    (clientGet cfg st now extra url hdrs params false net).state.store =
      st.store := by
  refine ⟨?_, ?_, ?_⟩ <;>
    · simp only [clientGet, clientNetPhase, Bool.false_and]
      repeat' split
      all_goals simp_all
